import Mathlib

/-
Verification of the plotting/statistics helper module `nb/utils.py` of the
DataWorld repository.

Modelling conventions of the shallow embedding:
* Python dictionaries (keyword-option mappings) are modelled as association
  lists `List (K × V)`; lookup returns the first binding of a key, and
  `dict.setdefault` appends a binding at the end exactly when the key is
  absent, matching insertion-order semantics of Python dicts.
* Numeric samples are `List ℚ`.  `np.mean` is `sum / length`; `np.std` is the
  square root of the population variance, which has no computable embedding
  over ℚ, so functions that the source feeds `np.std(sample)` take the
  standard deviation as an explicit argument `s` constrained by the predicate
  `isStd sample s` (`0 ≤ s` and `s * s = variance sample`).
* Matplotlib / IPython side effects (drawing a vertical line, constructing and
  plotting a `Pdf`, displaying a table, drawing a legend) are modelled by
  returning a record of the calls the Python code issues, with the argument
  values the source passes.
-/

namespace Nb

section Dict

variable {K : Type} {V : Type} [DecidableEq K]

/-- First-match lookup in an association list, the model of `d[key]` /
`key in d` for a Python dict. -/
def lookup (k : K) : List (K × V) → Option V
  | [] => none
  | (k0, v0) :: rest => if k = k0 then some v0 else lookup k rest

/-- Model of Python `d.setdefault(key, val)`: if `key` is absent, append the
binding; otherwise leave `d` unchanged. -/
def setdefault (d : List (K × V)) (k : K) (v : V) : List (K × V) :=
  match lookup k d with
  | some _ => d
  | none => d ++ [(k, v)]

/-- Embedding of `underride(d, **options)` from `nb/utils.py`: for each
key/value pair of `options`, `d.setdefault(key, val)`; return `d`. -/
def underride (d : List (K × V)) (options : List (K × V)) : List (K × V) :=
  options.foldl (fun acc kv => setdefault acc kv.1 kv.2) d

theorem lookup_append_of_some {d e : List (K × V)} {k : K} {v : V}
    (h : lookup k d = some v) : lookup k (d ++ e) = some v := by
  induction d with
  | nil => simp [lookup] at h
  | cons kv rest ih =>
      obtain ⟨k0, v0⟩ := kv
      by_cases hk : k = k0
      · simpa [lookup, hk] using h
      · simp only [lookup, hk, if_false] at h ⊢
        exact ih h

theorem lookup_append_of_none {d e : List (K × V)} {k : K}
    (h : lookup k d = none) : lookup k (d ++ e) = lookup k e := by
  induction d with
  | nil => simp
  | cons kv rest ih =>
      obtain ⟨k0, v0⟩ := kv
      by_cases hk : k = k0
      · simp [lookup, hk] at h
      · simp only [lookup, hk, if_false] at h ⊢
        exact ih h

theorem lookup_setdefault_of_some {d : List (K × V)} {k k0 : K} {v v0 : V}
    (h : lookup k d = some v) :
    lookup k (setdefault d k0 v0) = some v := by
  unfold setdefault
  cases hl : lookup k0 d with
  | some w => exact h
  | none => exact lookup_append_of_some h

theorem lookup_setdefault_self (d : List (K × V)) (k : K) (v : V) :
    (lookup k (setdefault d k v)).isSome := by
  unfold setdefault
  cases hl : lookup k d with
  | some w => simp [hl]
  | none =>
      rw [lookup_append_of_none hl]
      simp [lookup]

theorem lookup_setdefault_isSome {d : List (K × V)} {k : K} (k0 : K) (v0 : V)
    (h : (lookup k d).isSome) :
    (lookup k (setdefault d k0 v0)).isSome := by
  obtain ⟨v, hv⟩ := Option.isSome_iff_exists.mp h
  rw [lookup_setdefault_of_some hv]
  rfl

theorem underride_preserves_some {k : K} {v : V}
    (options : List (K × V)) (d : List (K × V))
    (h : lookup k d = some v) : lookup k (underride d options) = some v := by
  induction options generalizing d with
  | nil => exact h
  | cons kv rest ih =>
      exact ih (setdefault d kv.1 kv.2) (lookup_setdefault_of_some h)

theorem underride_preserves_isSome {k : K}
    (options : List (K × V)) (d : List (K × V))
    (h : (lookup k d).isSome) : (lookup k (underride d options)).isSome := by
  obtain ⟨v, hv⟩ := Option.isSome_iff_exists.mp h
  rw [underride_preserves_some options d hv]
  rfl

theorem underride_default_isSome {k : K} {v : V}
    (options : List (K × V)) (d : List (K × V))
    (h : (k, v) ∈ options) : (lookup k (underride d options)).isSome := by
  induction options generalizing d with
  | nil => simp at h
  | cons kv rest ih =>
      rcases List.mem_cons.mp h with heq | hmem
      · subst heq
        exact underride_preserves_isSome rest _ (lookup_setdefault_self d k v)
      · exact ih _ hmem

end Dict

/-- C1: after `underride(d, **defaults)` every default key is present in the
result, and every key/value binding that `d` already held is unchanged. -/
theorem underride_spec {K V : Type} [DecidableEq K]
    (d options : List (K × V)) :
    (∀ kv ∈ options, (lookup kv.1 (underride d options)).isSome) ∧
    (∀ (k : K) (v : V), lookup k d = some v →
      lookup k (underride d options) = some v) := by
  constructor
  · intro kv hkv
    exact underride_default_isSome options d (by simpa using hkv)
  · intro k v hv
    exact underride_preserves_some options d hv

/-- Witness for C1 on the spec example: `d = {"color": "red"}`,
defaults `{"color": "blue", "alpha": "0.6"}`: the caller value for
"color" survives and the default key "alpha" is present. -/
theorem underride_spec_witness :
    lookup "color"
        (underride [("color", "red")] [("color", "blue"), ("alpha", "0.6")])
      = some "red" ∧
    (lookup "alpha"
        (underride [("color", "red")] [("color", "blue"), ("alpha", "0.6")])).isSome := by
  refine ⟨?_, ?_⟩
  · exact (underride_spec [("color", "red")]
      [("color", "blue"), ("alpha", "0.6")]).2 "color" "red" (by rfl)
  · exact (underride_spec [("color", "red")]
      [("color", "blue"), ("alpha", "0.6")]).1 ("alpha", "0.6") (by simp)

section Stats

/-- Embedding of `np.mean(xs)` over a rational sample: sum divided by length
(`0` on the empty sample, by rational division by zero). -/
def mean (xs : List ℚ) : ℚ := xs.sum / xs.length

/-- Population variance, the square of `np.std(xs)`: mean squared deviation
from the mean. -/
def variance (xs : List ℚ) : ℚ :=
  (xs.map (fun x => (x - mean xs) ^ 2)).sum / xs.length

/-- Statement that `s` is the value of `np.std(xs)`: nonnegative with `s * s` equal to the
population variance.  This is the computable stand-in for the square root. -/
def isStd (xs : List ℚ) (s : ℚ) : Prop := 0 ≤ s ∧ s * s = variance xs

instance (xs : List ℚ) (s : ℚ) : Decidable (isStd xs s) := by
  unfold isStd
  infer_instance

/-- Embedding of `standardize(xs)` from `nb/utils.py`, which computes
`(xs - np.mean(xs)) / np.std(xs)`; `s` stands for `np.std(xs)`. -/
def standardize (xs : List ℚ) (s : ℚ) : List ℚ :=
  xs.map (fun x => (x - mean xs) / s)

theorem sum_map_affine (a b : ℚ) (xs : List ℚ) :
    (xs.map (fun x => a * x + b)).sum = a * xs.sum + b * xs.length := by
  induction xs with
  | nil => simp
  | cons x rest ih =>
      simp only [List.map_cons, List.sum_cons, ih, List.length_cons]
      push_cast
      ring

theorem length_ne_zero_q {xs : List ℚ} (h : xs ≠ []) : (xs.length : ℚ) ≠ 0 := by
  have : xs.length ≠ 0 := fun h0 => h (List.length_eq_zero.mp h0)
  exact_mod_cast this

theorem mean_map_affine (a b : ℚ) {xs : List ℚ} (h : xs ≠ []) :
    mean (xs.map (fun x => a * x + b)) = a * mean xs + b := by
  have hn := length_ne_zero_q h
  unfold mean
  rw [sum_map_affine, List.length_map]
  field_simp

theorem sum_map_const_mul (c : ℚ) (f : ℚ → ℚ) (xs : List ℚ) :
    (xs.map (fun x => c * f x)).sum = c * (xs.map f).sum := by
  induction xs with
  | nil => simp
  | cons x rest ih =>
      simp only [List.map_cons, List.sum_cons, ih]
      ring

theorem variance_map_affine (a b : ℚ) {xs : List ℚ} (h : xs ≠ []) :
    variance (xs.map (fun x => a * x + b)) = a ^ 2 * variance xs := by
  unfold variance
  rw [mean_map_affine a b h, List.length_map, List.map_map]
  have hmap : ((fun x => (x - (a * mean xs + b)) ^ 2) ∘ fun x => a * x + b)
      = fun x => a ^ 2 * (x - mean xs) ^ 2 := by
    funext x
    simp only [Function.comp]
    ring
  rw [hmap, sum_map_const_mul (a ^ 2) (fun x => (x - mean xs) ^ 2) xs,
    mul_div_assoc]

theorem variance_nil : variance [] = 0 := by
  simp [variance]

theorem ne_nil_of_variance_pos {xs : List ℚ} (h : 0 < variance xs) : xs ≠ [] := by
  intro hnil
  rw [hnil, variance_nil] at h
  exact lt_irrefl 0 h

theorem std_ne_zero_of_variance_pos {xs : List ℚ} {s : ℚ}
    (hs : isStd xs s) (h : 0 < variance xs) : s ≠ 0 := by
  intro h0
  have h2 := hs.2
  rw [h0, mul_zero] at h2
  rw [← h2] at h
  exact lt_irrefl 0 h

theorem standardize_eq_affine (xs : List ℚ) (s : ℚ) :
    standardize xs s = xs.map (fun x => s⁻¹ * x + -(mean xs) * s⁻¹) := by
  unfold standardize
  congr 1
  funext x
  rw [div_eq_mul_inv]
  ring

theorem mean_standardize {xs : List ℚ} (s : ℚ) (h : xs ≠ []) :
    mean (standardize xs s) = 0 := by
  rw [standardize_eq_affine, mean_map_affine _ _ h]
  ring

theorem variance_standardize {xs : List ℚ} {s : ℚ}
    (hs : isStd xs s) (h : 0 < variance xs) :
    variance (standardize xs s) = 1 := by
  have hne := ne_nil_of_variance_pos h
  have hs0 := std_ne_zero_of_variance_pos hs h
  rw [standardize_eq_affine, variance_map_affine _ _ hne]
  have : (s⁻¹) ^ 2 = (s * s)⁻¹ := by
    rw [sq, mul_inv]
  rw [this, hs.2]
  exact inv_mul_cancel₀ (ne_of_gt h)

end Stats

theorem mean_ex : mean [(0 : ℚ), 2] = 1 := by
  norm_num [mean]

theorem variance_ex : variance [(0 : ℚ), 2] = 1 := by
  norm_num [variance, mean_ex]

theorem isStd_ex : isStd [(0 : ℚ), 2] 1 :=
  ⟨zero_le_one, by rw [variance_ex, one_mul]⟩

theorem variance_ex_pos : 0 < variance [(0 : ℚ), 2] := by
  rw [variance_ex]
  exact zero_lt_one

theorem standardize_ex : standardize [(0 : ℚ), 2] 1 = [-1, 1] := by
  norm_num [standardize, mean_ex]

/-- C4: on a sample with positive variance, `standardize` returns
`(xs - mean xs) / std`, and the result has mean exactly `0` and standard
deviation exactly `1` (exact over ℚ, hence within any floating tolerance);
`s` is `np.std(xs)` via `isStd`. -/
theorem standardize_spec (xs : List ℚ) (s : ℚ)
    (h1 : isStd xs s) (h2 : 0 < variance xs) :
    standardize xs s = xs.map (fun x => (x - mean xs) / s) ∧
    mean (standardize xs s) = 0 ∧
    isStd (standardize xs s) 1 := by
  refine ⟨rfl, mean_standardize s (ne_nil_of_variance_pos h2), zero_le_one, ?_⟩
  rw [one_mul, variance_standardize h1 h2]

/-- Witness for C4 at the sample `[0, 2]`, whose standard deviation is `1`:
the standardized sample is `[-1, 1]`, with mean `0` and variance `1`. -/
theorem standardize_spec_witness :
    standardize [(0 : ℚ), 2] 1 = [-1, 1] ∧
    mean (standardize [(0 : ℚ), 2] 1) = 0 ∧
    isStd (standardize [(0 : ℚ), 2] 1) 1 := by
  have h := standardize_spec [(0 : ℚ), 2] 1 isStd_ex variance_ex_pos
  exact ⟨standardize_ex, h.2.1, h.2.2⟩

/-- C5: `standardize` is idempotent on a sample with positive variance: the
standardized sample has standard deviation `1`, and standardizing it again
(with its own standard deviation) returns it unchanged, exactly over ℚ. -/
theorem standardize_idempotent (xs : List ℚ) (s : ℚ)
    (h1 : isStd xs s) (h2 : 0 < variance xs) :
    isStd (standardize xs s) 1 ∧
    standardize (standardize xs s) 1 = standardize xs s := by
  have hne := ne_nil_of_variance_pos h2
  constructor
  · exact ⟨zero_le_one, by rw [one_mul, variance_standardize h1 h2]⟩
  · unfold standardize
    rw [show xs.map (fun x => (x - mean xs) / s) = standardize xs s from rfl,
      mean_standardize s hne]
    simp

/-- Witness for C5 at the sample `[0, 2]` with standard deviation `1`:
re-standardizing `[-1, 1]` returns `[-1, 1]`. -/
theorem standardize_idempotent_witness :
    standardize (standardize [(0 : ℚ), 2] 1) 1 = standardize [(0 : ℚ), 2] 1 := by
  exact (standardize_idempotent [(0 : ℚ), 2] 1 isStd_ex variance_ex_pos).2

section PlotKde

/-- The call `plt.axvline(m, ls=":", color="0.3")` that `plot_kde` issues:
position of the vertical line and the two style options the source passes. -/
structure AxvlineCall where
  x : ℚ
  ls : String
  color : String

/-- The `Pdf(kde, domain, name)` construction plus `pdf.plot(**options)` at
the end of `plot_kde`: the domain and name bound into the density-curve
object, and the caller styling options forwarded to its plot call.  The
`gaussian_kde` estimator itself is an external numeric object carrying no
data relevant to the claims, so it is not recorded. -/
structure PdfCall where
  domain : ℚ × ℚ
  name : String
  options : List (String × String)

/-- The drawing calls issued by one run of `plot_kde`. -/
structure PlotKdeCalls where
  axvline : AxvlineCall
  pdf : PdfCall

/-- Embedding of `plot_kde(sample, name, **options)` from `nb/utils.py`:
`m, s = np.mean(sample), np.std(sample)`; `plt.axvline(m, ls=":",
color="0.3")`; `domain = m - 4 * s, m + 4 * s`; `Pdf(kde, domain,
name).plot(**options)`.  The argument `s` stands for `np.std(sample)` and is
constrained by `isStd sample s` in the theorems. -/
def plot_kde (sample : List ℚ) (s : ℚ) (name : String)
    (options : List (String × String)) : PlotKdeCalls :=
  let m := mean sample
  { axvline := { x := m, ls := ":", color := "0.3" }
    pdf := { domain := (m - 4 * s, m + 4 * s), name := name
             options := options } }

end PlotKde

/-- C2: on a non-empty sample with `m = np.mean(sample)` and
`s = np.std(sample)`, `plot_kde` draws its vertical marker at `x = m` with
the fixed dotted muted style `ls=":"`, `color="0.3"`, the marker call is
independent of the caller-supplied styling options, and the density curve is
bound to exactly the domain `(m - 4s, m + 4s)`. -/
theorem plot_kde_spec (sample : List ℚ) (s : ℚ) (n : String)
    (o o' : List (String × String)) (h0 : sample ≠ []) (h : isStd sample s) :
    (plot_kde sample s n o).axvline.x = mean sample ∧
    (plot_kde sample s n o).axvline.ls = ":" ∧
    (plot_kde sample s n o).axvline.color = "0.3" ∧
    (plot_kde sample s n o).axvline = (plot_kde sample s n o').axvline ∧
    (plot_kde sample s n o).pdf.domain = (mean sample - 4 * s, mean sample + 4 * s) :=
  ⟨rfl, rfl, rfl, rfl, rfl⟩

/-- Witness for C2 at the sample `[0, 2]` (mean `1`, standard deviation `1`),
with empty caller options against options carrying a color override. -/
theorem plot_kde_spec_witness :
    (plot_kde [(0 : ℚ), 2] 1 "" []).axvline.x = mean [(0 : ℚ), 2] ∧
    (plot_kde [(0 : ℚ), 2] 1 "" []).axvline.ls = ":" ∧
    (plot_kde [(0 : ℚ), 2] 1 "" []).axvline.color = "0.3" ∧
    (plot_kde [(0 : ℚ), 2] 1 "" []).axvline
      = (plot_kde [(0 : ℚ), 2] 1 "" [("color", "C1")]).axvline ∧
    (plot_kde [(0 : ℚ), 2] 1 "" []).pdf.domain
      = (mean [(0 : ℚ), 2] - 4 * 1, mean [(0 : ℚ), 2] + 4 * 1) :=
  plot_kde_spec [(0 : ℚ), 2] 1 "" [] [("color", "C1")]
    (List.cons_ne_nil 0 [2]) isStd_ex

/-- Counterexample to C3 as stated: at the sample `[0, 2]`, whose standard
deviation is `1`, the plotting domain of `plot_kde` is `(-3, 5)`, of total
width `8`, not `4 * 1`. -/
theorem plot_kde_domain_width_cex :
    isStd [(0 : ℚ), 2] 1 ∧
    ¬ ((plot_kde [(0 : ℚ), 2] 1 "" []).pdf.domain.2
        - (plot_kde [(0 : ℚ), 2] 1 "" []).pdf.domain.1 = 4 * 1) := by
  refine ⟨isStd_ex, ?_⟩
  norm_num [plot_kde, mean_ex]

/-- C3 amended: the plotting domain of `plot_kde` is centered on the sample
mean, but its total width is eight sample standard deviations (`4s` on each
side of the mean), not four. -/
theorem plot_kde_domain_width (sample : List ℚ) (s : ℚ) (n : String)
    (o : List (String × String)) (h0 : sample ≠ []) (h : isStd sample s) :
    (plot_kde sample s n o).pdf.domain.2
        - (plot_kde sample s n o).pdf.domain.1 = 8 * s ∧
    (plot_kde sample s n o).pdf.domain.1 + (plot_kde sample s n o).pdf.domain.2
        = 2 * mean sample := by
  constructor
  · show mean sample + 4 * s - (mean sample - 4 * s) = 8 * s
    ring
  · show mean sample - 4 * s + (mean sample + 4 * s) = 2 * mean sample
    ring

/-- Witness for the amended C3 at the sample `[0, 2]` with standard
deviation `1`: the domain `(-3, 5)` has width `8` and midpoint the mean. -/
theorem plot_kde_domain_width_witness :
    (plot_kde [(0 : ℚ), 2] 1 "" []).pdf.domain.2
        - (plot_kde [(0 : ℚ), 2] 1 "" []).pdf.domain.1 = 8 * 1 ∧
    (plot_kde [(0 : ℚ), 2] 1 "" []).pdf.domain.1
        + (plot_kde [(0 : ℚ), 2] 1 "" []).pdf.domain.2 = 2 * mean [(0 : ℚ), 2] :=
  plot_kde_domain_width [(0 : ℚ), 2] 1 "" [] (List.cons_ne_nil 0 [2]) isStd_ex

section Summary

/-- Model of a fitted regression result as `display_summary` probes it:
the coefficient table `result.summary().tables[1]`, and the two optional
attributes `rsquared` and `prsquared` (`none` models a missing attribute,
`some` a present one, mirroring `hasattr`). -/
structure RegressionResult where
  params_table : List (List String)
  rsquared : Option ℚ
  prsquared : Option ℚ

/-- One `display(...)` call issued by `display_summary`: either the
coefficient table, or a `SimpleTable` built from rows of label/value pairs
(the numeric value is recorded unformatted). -/
inductive Displayed where
  | params (t : List (List String))
  | simple (rows : List (String × ℚ))
deriving DecidableEq

/-- Embedding of `display_summary(result)` from `nb/utils.py`: display the
coefficient table; then, if the result has `rsquared`, display a one-row
`SimpleTable` with the R-squared value; elif it has `prsquared`, the
pseudo-R-squared row; else return.  The value is the list of display calls
in order. -/
def display_summary (result : RegressionResult) : List Displayed :=
  let params := Displayed.params result.params_table
  match result.rsquared with
  | some r => [params, Displayed.simple [("R-squared:", r)]]
  | none =>
      match result.prsquared with
      | some p => [params, Displayed.simple [("Pseudo R-squared:", p)]]
      | none => [params]

end Summary

/-- C6: on a result exposing `rsquared`, `display_summary` renders exactly
two tables: the coefficient table, then the one-row R-squared table; on a
result exposing neither `rsquared` nor `prsquared`, it renders exactly one
table, the coefficient table. -/
theorem display_summary_spec (result : RegressionResult) :
    (∀ r, result.rsquared = some r →
      display_summary result
        = [Displayed.params result.params_table,
           Displayed.simple [("R-squared:", r)]]) ∧
    (result.rsquared = none → result.prsquared = none →
      display_summary result = [Displayed.params result.params_table]) := by
  constructor
  · intro r hr
    simp [display_summary, hr]
  · intro h1 h2
    simp [display_summary, h1, h2]

/-- Witness for C6: a result with `rsquared = 1/2` yields the two tables; a
result with neither attribute yields only the coefficient table. -/
theorem display_summary_spec_witness :
    display_summary ⟨[["x", "1.0"]], some (1 / 2), none⟩
      = [Displayed.params [["x", "1.0"]],
         Displayed.simple [("R-squared:", 1 / 2)]] ∧
    display_summary ⟨[["x", "1.0"]], none, none⟩
      = [Displayed.params [["x", "1.0"]]] :=
  ⟨(display_summary_spec ⟨[["x", "1.0"]], some (1 / 2), none⟩).1 (1 / 2) rfl,
   (display_summary_spec ⟨[["x", "1.0"]], none, none⟩).2 rfl rfl⟩

/-- C10: on a result exposing both `rsquared` and `prsquared`,
`display_summary` renders the R-squared row, not the pseudo-R-squared row:
the `rsquared` probe takes precedence. -/
theorem display_summary_rsquared_precedence (result : RegressionResult)
    (r p : ℚ) (hr : result.rsquared = some r)
    (hp : result.prsquared = some p) :
    display_summary result
      = [Displayed.params result.params_table,
         Displayed.simple [("R-squared:", r)]] := by
  simp [display_summary, hr]

/-- Witness for C10: a result with `rsquared = 1/2` and `prsquared = 1/4`
renders the R-squared row. -/
theorem display_summary_rsquared_precedence_witness :
    display_summary ⟨[["x", "1.0"]], some (1 / 2), some (1 / 4)⟩
      = [Displayed.params [["x", "1.0"]],
         Displayed.simple [("R-squared:", 1 / 2)]] :=
  display_summary_rsquared_precedence
    ⟨[["x", "1.0"]], some (1 / 2), some (1 / 4)⟩ (1 / 2) (1 / 4) rfl rfl

section Legend

/-- A plotted artifact on the current axes; `label` is `some` exactly when
the artist carries a legend label. -/
structure Artist where
  label : Option String

/-- Model of `ax.get_legend_handles_labels()`: the artists carrying a label,
paired with their labels. -/
def get_legend_handles_labels (a : List Artist) :
    List Artist × List String :=
  let handles := a.filter (fun x => x.label.isSome)
  (handles, handles.filterMap (fun x => x.label))

/-- Embedding of `legend(**options)` from `nb/utils.py`: underride the
options with `loc="best"`, fetch the handles and labels of the current axes,
and call `ax.legend(handles, labels, **options)` only if `handles` is
non-empty.  The value is `some` of the arguments of the legend call when a legend
is drawn and `none` when it is suppressed. -/
def legend (a : List Artist) (options : List (String × String)) :
    Option (List Artist × List String × List (String × String)) :=
  let options := underride options [("loc", "best")]
  let hl := get_legend_handles_labels a
  if hl.1.isEmpty then none else some (hl.1, hl.2, options)

end Legend

/-- C7: `legend` draws a legend if and only if at least one plotted
artifact on the axes carries a label. -/
theorem legend_spec (a : List Artist) (o : List (String × String)) :
    (legend a o).isSome ↔ ∃ x ∈ a, x.label.isSome := by
  unfold legend get_legend_handles_labels
  by_cases h : (List.filter (fun x => x.label.isSome) a).isEmpty
  · rw [if_pos h]
    simp only [Option.isSome_none, Bool.false_eq_true, false_iff]
    rw [List.isEmpty_iff] at h
    rintro ⟨x, hx, hlx⟩
    have hmem : x ∈ List.filter (fun x => x.label.isSome) a :=
      List.mem_filter.mpr ⟨hx, hlx⟩
    rw [h] at hmem
    exact absurd hmem (List.not_mem_nil x)
  · rw [if_neg h]
    simp only [Option.isSome_some, true_iff]
    rw [List.isEmpty_iff] at h
    obtain ⟨x, hx⟩ := List.exists_mem_of_ne_nil _ h
    have hmem := List.mem_filter.mp hx
    exact ⟨x, hmem.1, hmem.2⟩

section Jitter

/-- Embedding of `jitter(seq, std)` from `nb/utils.py`, which returns
`np.random.normal(0, std, n) + seq`.  The draws from `normal(0, std)` are
modelled as `std * z i` for a list `z` of standard-normal draws, so the
result adds independent zero-mean noise of standard deviation `std` to each
element (and with `std = 0` the added noise is exactly zero, as in numpy). -/
def jitter (seq : List ℚ) (std : ℚ) (z : List ℚ) : List ℚ :=
  List.zipWith (fun zi x => std * zi + x) z seq

end Jitter

/-- C9: with as many noise draws as elements, `jitter seq 0 z` returns `seq`
unchanged (the added noise is exactly zero), and for any `std` the result
has the same length as `seq`. -/
theorem jitter_spec (seq z : List ℚ) (s : ℚ) (h : z.length = seq.length) :
    jitter seq 0 z = seq ∧ (jitter seq s z).length = seq.length := by
  constructor
  · unfold jitter
    induction seq generalizing z with
    | nil => simp
    | cons x rest ih =>
        cases z with
        | nil => simp at h
        | cons zi zrest =>
            rw [List.zipWith_cons_cons, ih zrest (by simpa using h)]
            norm_num
  · unfold jitter
    rw [List.length_zipWith, h, min_self]

/-- Witness for C9: on `seq = [1, 2]` with noise draws `[5, 7]`, `std = 0`
returns `[1, 2]` and `std = 3` returns a list of length `2`. -/
theorem jitter_spec_witness :
    jitter [(1 : ℚ), 2] 0 [5, 7] = [(1 : ℚ), 2] ∧
    (jitter [(1 : ℚ), 2] 3 [5, 7]).length = [(1 : ℚ), 2].length :=
  jitter_spec [(1 : ℚ), 2] [5, 7] 3 rfl

section ValueCounts

/-- A series entry: `some q` is an ordinary value, `none` a missing/NaN
entry. -/
abbrev Entry := Option ℚ

/-- The distinct non-missing values of a series, sorted ascending: the index
produced by `series.value_counts(...).sort_index()`. -/
def sortedKeys (series : List Entry) : List ℚ :=
  List.insertionSort (fun x y => x ≤ y) (series.filterMap id).dedup

/-- The rows of the counted series for the non-missing values: each distinct
value paired with its number of occurrences, in ascending value order. -/
def countRows (series : List Entry) : List (Entry × ℕ) :=
  (sortedKeys series).map (fun q => (some q, series.count (some q)))

/-- The row for the missing value, present exactly when the series contains
a missing entry; pandas sorts the missing index entry last. -/
def naRows (series : List Entry) : List (Entry × ℕ) :=
  if series.count none = 0 then [] else [(none, series.count none)]

/-- Model of `series.value_counts(dropna=...).sort_index()`: frequencies of
the distinct values sorted ascending by value, with a trailing row counting
the missing entries when `dropna` is false. -/
def value_counts_core (series : List Entry) (dropna : Bool) :
    List (Entry × ℕ) :=
  if dropna then countRows series else countRows series ++ naRows series

/-- Embedding of `value_counts(series, **options)` from `nb/utils.py`:
`options = underride(options, dropna=False)`, then
`series.value_counts(**options).sort_index()`.  The only option consumed by
the model is `dropna`. -/
def value_counts (series : List Entry) (options : List (String × Bool)) :
    List (Entry × ℕ) :=
  let merged := underride options [("dropna", false)]
  value_counts_core series ((lookup "dropna" merged).getD false)

/-- Ascending order on series index entries with the missing entry last,
the order `sort_index` leaves the index in. -/
def valLe : Entry → Entry → Prop
  | some x, some y => x ≤ y
  | _, none => True
  | none, some _ => False

theorem mem_sortedKeys {series : List Entry} {q : ℚ} :
    q ∈ sortedKeys series ↔ some q ∈ series := by
  unfold sortedKeys
  rw [(List.perm_insertionSort _ _).mem_iff, List.mem_dedup,
    List.mem_filterMap]
  constructor
  · rintro ⟨a, ha, hq⟩
    rw [show id a = a from rfl] at hq
    rwa [hq] at ha
  · intro h
    exact ⟨some q, h, rfl⟩

theorem sortedKeys_nodup (series : List Entry) : (sortedKeys series).Nodup :=
  (List.Perm.nodup_iff (List.perm_insertionSort _ _)).mpr
    (List.nodup_dedup _)

theorem sortedKeys_sorted (series : List Entry) :
    List.Pairwise (fun x y : ℚ => x ≤ y) (sortedKeys series) :=
  List.sorted_insertionSort _ _

end ValueCounts

/-- C8: with no caller options, `value_counts` tabulates the frequency of
each distinct value of the series sorted by value ascending, missing entries
included (the underridden default `dropna=False`); a caller-supplied
`dropna` option takes precedence over the default; and on
`[1, 1, 2, 3, 3, 3]` the result is `(1, 2), (2, 1), (3, 3)` in that order. -/
theorem value_counts_spec (series : List Entry) (b : Bool) :
    (∀ p ∈ value_counts series [], p.2 = series.count p.1) ∧
    (∀ v ∈ series, (v, series.count v) ∈ value_counts series []) ∧
    ((value_counts series []).map Prod.fst).Nodup ∧
    List.Pairwise valLe ((value_counts series []).map Prod.fst) ∧
    value_counts series [("dropna", b)] = value_counts_core series b ∧
    value_counts [some (1 : ℚ), some 1, some 2, some 3, some 3, some 3] []
      = [(some 1, 2), (some 2, 1), (some 3, 3)] := by
  have hdef : value_counts series [] = countRows series ++ naRows series := rfl
  have hkeys : (countRows series).map Prod.fst = (sortedKeys series).map some := by
    unfold countRows
    rw [List.map_map]
    rfl
  refine ⟨?_, ?_, ?_, ?_, rfl, ?_⟩
  · intro p hp
    rw [hdef] at hp
    rcases List.mem_append.mp hp with hm | hn
    · obtain ⟨q, hq, hpe⟩ := List.mem_map.mp hm
      rw [← hpe]
    · unfold naRows at hn
      by_cases hz : series.count none = 0
      · rw [if_pos hz] at hn
        exact absurd hn (List.not_mem_nil p)
      · rw [if_neg hz] at hn
        rw [List.mem_singleton.mp hn]
  · intro v hv
    rw [hdef]
    cases v with
    | some q =>
        refine List.mem_append_left _ (List.mem_map.mpr ⟨q, ?_, rfl⟩)
        exact mem_sortedKeys.mpr hv
    | none =>
        have hz : series.count none ≠ 0 := fun h0 =>
          (List.count_eq_zero.mp h0) hv
        refine List.mem_append_right _ ?_
        unfold naRows
        rw [if_neg hz]
        exact List.mem_singleton.mpr rfl
  · rw [hdef, List.map_append, List.nodup_append, hkeys]
    refine ⟨(sortedKeys_nodup series).map (Option.some_injective ℚ), ?_, ?_⟩
    · unfold naRows
      by_cases hz : series.count none = 0
      · rw [if_pos hz]
        exact List.nodup_nil
      · rw [if_neg hz]
        exact List.nodup_singleton _
    · intro x hx hx2
      obtain ⟨q, hq, hqe⟩ := List.mem_map.mp hx
      unfold naRows at hx2
      by_cases hz : series.count none = 0
      · rw [if_pos hz] at hx2
        exact absurd hx2 (List.not_mem_nil x)
      · rw [if_neg hz] at hx2
        rw [List.mem_singleton.mp hx2] at hqe
        exact Option.noConfusion hqe
  · rw [hdef, List.map_append, List.pairwise_append, hkeys]
    refine ⟨List.Pairwise.map some (fun x y h => h) (sortedKeys_sorted series),
      ?_, ?_⟩
    · unfold naRows
      by_cases hz : series.count none = 0
      · rw [if_pos hz]
        exact List.Pairwise.nil
      · rw [if_neg hz]
        exact List.pairwise_singleton _ _
    · intro x hx c hc
      obtain ⟨q, hq, hqe⟩ := List.mem_map.mp hx
      unfold naRows at hc
      by_cases hz : series.count none = 0
      · rw [if_pos hz] at hc
        exact absurd hc (List.not_mem_nil c)
      · rw [if_neg hz] at hc
        have hce : c = none := by simpa using hc
        rw [← hqe, hce]
        exact trivial
  · rfl

/-- Witness for C8: applied to the example series of the spec, the row for value
`2` is present with count `1`, the caller override `dropna := true` is
honoured, and the full result is `(1, 2), (2, 1), (3, 3)`. -/
theorem value_counts_spec_witness :
    ((some (2 : ℚ), 1) :
        Entry × ℕ) ∈
      value_counts [some (1 : ℚ), some 1, some 2, some 3, some 3, some 3] [] ∧
    value_counts [some (1 : ℚ), some 1, some 2, some 3, some 3, some 3] []
      = [(some 1, 2), (some 2, 1), (some 3, 3)] := by
  have h := value_counts_spec
    [some (1 : ℚ), some 1, some 2, some 3, some 3, some 3] true
  refine ⟨?_, h.2.2.2.2.2⟩
  have hm := h.2.1 (some 2) (by simp)
  simpa using hm

end Nb
